import Mathlib

/-!
Verification development for the `file-search` tool: a shallow embedding of
its transactional indexing layer (src/search.rs), error taxonomy
(src/error.rs) and interactive session controller (src/shell.rs), together
with proofs of the spec's claims about them.
-/

namespace FileSearchModel

/-- Mirrors `ErrorSource` from src/error.rs. -/
inductive ErrorSource where
  | Io
  | Redb
  | Tantivy
deriving DecidableEq, Repr

/-- Mirrors `Error` from src/error.rs: an origin tag plus a message. -/
structure ErrorModel where
  source : ErrorSource
  message : String
deriving DecidableEq, Repr

/-- Mirrors `FileStateEntry` from src/search.rs: `epoch: u128`, `hash: u64`,
both embedded as `Nat` (the code never does arithmetic on them, only
equality comparison and encoding, so no overflow is reachable). -/
structure FileStateEntry where
  epoch : Nat
  hash : Nat
deriving DecidableEq, Repr

/-- Metadata visible through `fs::metadata`: whether the path is a regular
file, and the modification time in milliseconds since the epoch
(`get_file_epoch` in src/search.rs). -/
structure FileMeta where
  isFile : Bool
  mtimeMillis : Nat
deriving DecidableEq, Repr

/-- The file-system environment the program runs against. `meta` models
`fs::metadata` (`none` = inaccessible), `content` models
`fs::read_to_string` (`none` = read failure); the two can fail
independently, as in the OS. -/
structure FileSystem where
  meta : String → Option FileMeta
  content : String → Option String

/-- One staged operation on the tantivy index writer: `add_document`,
`delete_term(path, v)`, or `delete_all_documents`. -/
inductive IndexOp where
  | addDocument (path content : String)
  | deleteTerm (path : String)
  | deleteAll
deriving DecidableEq, Repr

/-- Mirrors `FileSearchWriteTransaction` from src/search.rs: the redb write
transaction is its visible `path -> FileStateEntry` table, the tantivy
`IndexWriter` is the ordered list of staged operations. -/
structure WriteTxn where
  table : String → Option FileStateEntry
  staged : List IndexOp

/-- A file-system access performed by an operation: `probe` is a
`fs::metadata` call, `readContent` is a `fs::read_to_string` call. Used to
instrument `add` so claims about "only a metadata probe" are statable. -/
inductive FsEvent where
  | probe (path : String)
  | readContent (path : String)
deriving DecidableEq, Repr

namespace FileSearchWriteTransaction

/-- Mirrors `get_file_epoch` (src/search.rs): the file's mtime in ms, or an
Io-tagged error when the metadata is inaccessible. -/
def get_file_epoch (fs : FileSystem) (path : String) : Except ErrorModel Nat :=
  match fs.meta path with
  | some m => .ok m.mtimeMillis
  | none => .error ⟨.Io, "metadata inaccessible"⟩

/-- Mirrors `get_file_data` (src/search.rs): read the content and hash it.
The xxh3_64 hasher is an external pure function, taken as the parameter
`h`. -/
def get_file_data (h : String → Nat) (fs : FileSystem) (path : String) :
    Except ErrorModel (String × Nat) :=
  match fs.content path with
  | some c => .ok (c, h c)
  | none => .error ⟨.Io, "read failed"⟩

/-- Mirrors `insert_into_state` (src/search.rs): redb `table.insert`
overwrites the value at the key. -/
def insert_into_state (path : String) (entry : FileStateEntry) (st : WriteTxn) : WriteTxn :=
  { st with table := fun q => if q = path then some entry else st.table q }

/-- Mirrors `delete_from_state` (src/search.rs): redb `table.remove`. -/
def delete_from_state (path : String) (st : WriteTxn) : WriteTxn :=
  { st with table := fun q => if q = path then none else st.table q }

/-- Mirrors `insert_into_index` (src/search.rs): stage an `add_document`
with the `path` and `content` fields. -/
def insert_into_index (path content : String) (st : WriteTxn) : WriteTxn :=
  { st with staged := st.staged ++ [.addDocument path content] }

/-- Mirrors `delete_from_index` (src/search.rs): stage a
`delete_term(path, v)` on the writer. -/
def delete_from_index (path : String) (st : WriteTxn) : WriteTxn :=
  { st with staged := st.staged ++ [.deleteTerm path] }

/-- Mirrors `FileSearchWriteTransaction::add` (src/search.rs lines
171-196), instrumented with the list of file-system accesses it performs.
Control flow is identical to the source: probe the mtime; if a state is
stored and its epoch equals the current one, do nothing more; if it
differs, read and hash the content, and either update only the state
(equal hash) or stage delete+insert and update the state (changed hash);
if no state is stored, read, upsert the state, then stage the insert. -/
def add (h : String → Nat) (fs : FileSystem) (path : String) (st : WriteTxn) :
    Except ErrorModel (WriteTxn × List FsEvent) :=
  match get_file_epoch fs path with
  | .error e => .error e
  | .ok epoch =>
    match st.table path with
    | some state =>
      if state.epoch = epoch then
        .ok (st, [.probe path])
      else
        match get_file_data h fs path with
        | .error e => .error e
        | .ok (content, hsh) =>
          if state.hash = hsh then
            .ok (insert_into_state path ⟨epoch, hsh⟩ st, [.probe path, .readContent path])
          else
            .ok (insert_into_state path ⟨epoch, hsh⟩
                  (insert_into_index path content (delete_from_index path st)),
                 [.probe path, .readContent path])
    | none =>
      match get_file_data h fs path with
      | .error e => .error e
      | .ok (content, hsh) =>
        .ok (insert_into_index path content (insert_into_state path ⟨epoch, hsh⟩ st),
             [.probe path, .readContent path])

/-- Mirrors `FileSearchWriteTransaction::remove` (src/search.rs lines
198-201): stage delete-by-path on the writer, then remove the state entry.
Neither step touches the file system. -/
def remove (path : String) (st : WriteTxn) : Except ErrorModel (WriteTxn × List FsEvent) :=
  .ok (delete_from_state path (delete_from_index path st), [])

/-- Mirrors `FileSearchWriteTransaction::clear` (src/search.rs lines
203-216): remove every key visible in this transaction, stage
delete-all on the writer. -/
def clear (st : WriteTxn) : Except ErrorModel (WriteTxn × List FsEvent) :=
  .ok ({ table := fun _ => none, staged := st.staged ++ [.deleteAll] }, [])

end FileSearchWriteTransaction

/-- Committed documents of the tantivy index: a multiset (list) of
(path, content) pairs, the `path` field being the deletion key. -/
def IndexDocs := List (String × String)

/-- Effect of one staged writer operation on the committed documents. -/
def applyOp (docs : List (String × String)) : IndexOp → List (String × String)
  | .addDocument p c => docs ++ [(p, c)]
  | .deleteTerm p => docs.filter (fun d => d.1 != p)
  | .deleteAll => []

/-- Effect of a staged-operation list, applied in order. -/
def applyOps (docs : List (String × String)) (ops : List IndexOp) : List (String × String) :=
  ops.foldl applyOp docs

namespace FileSearchWriteTransaction

@[simp] theorem insert_into_state_table_self (path : String) (e : FileStateEntry)
    (st : WriteTxn) : (insert_into_state path e st).table path = some e := by
  simp [insert_into_state]

@[simp] theorem insert_into_index_table (path content : String) (st : WriteTxn) :
    (insert_into_index path content st).table = st.table := rfl

@[simp] theorem delete_from_index_table (path : String) (st : WriteTxn) :
    (delete_from_index path st).table = st.table := rfl

@[simp] theorem insert_into_state_staged (path : String) (e : FileStateEntry)
    (st : WriteTxn) : (insert_into_state path e st).staged = st.staged := rfl

theorem add_meta_missing (h : String → Nat) (fs : FileSystem) (path : String)
    (st : WriteTxn) (hm : fs.meta path = none) :
    add h fs path st = .error ⟨.Io, "metadata inaccessible"⟩ := by
  simp [add, get_file_epoch, hm]

theorem add_skip (h : String → Nat) (fs : FileSystem) (path : String) (st : WriteTxn)
    (m : FileMeta) (s : FileStateEntry) (hm : fs.meta path = some m)
    (ht : st.table path = some s) (he : s.epoch = m.mtimeMillis) :
    add h fs path st = .ok (st, [.probe path]) := by
  simp [add, get_file_epoch, hm, ht, he]

theorem add_metadata_only (h : String → Nat) (fs : FileSystem) (path : String)
    (st : WriteTxn) (m : FileMeta) (s : FileStateEntry) (c : String)
    (hm : fs.meta path = some m) (ht : st.table path = some s)
    (hne : s.epoch ≠ m.mtimeMillis) (hc : fs.content path = some c)
    (hh : s.hash = h c) :
    add h fs path st =
      .ok (insert_into_state path ⟨m.mtimeMillis, h c⟩ st,
           [.probe path, .readContent path]) := by
  simp [add, get_file_epoch, get_file_data, hm, ht, hne, hc, hh]

theorem add_reindex_changed (h : String → Nat) (fs : FileSystem) (path : String)
    (st : WriteTxn) (m : FileMeta) (s : FileStateEntry) (c : String)
    (hm : fs.meta path = some m) (ht : st.table path = some s)
    (hne : s.epoch ≠ m.mtimeMillis) (hc : fs.content path = some c)
    (hh : s.hash ≠ h c) :
    add h fs path st =
      .ok (insert_into_state path ⟨m.mtimeMillis, h c⟩
            (insert_into_index path c (delete_from_index path st)),
           [.probe path, .readContent path]) := by
  simp [add, get_file_epoch, get_file_data, hm, ht, hne, hc, hh]

theorem add_fresh (h : String → Nat) (fs : FileSystem) (path : String)
    (st : WriteTxn) (m : FileMeta) (c : String)
    (hm : fs.meta path = some m) (ht : st.table path = none)
    (hc : fs.content path = some c) :
    add h fs path st =
      .ok (insert_into_index path c (insert_into_state path ⟨m.mtimeMillis, h c⟩ st),
           [.probe path, .readContent path]) := by
  simp [add, get_file_epoch, get_file_data, hm, ht, hc]

end FileSearchWriteTransaction

/-! ## Error conversions (src/error.rs)

Each `From<...> for Error` impl becomes a function taking the underlying
error's message; the `source` tag it assigns is copied verbatim from the
source file. -/

/-- `From<io::Error>` (src/error.rs): tagged `Io`. -/
def errorFromIo (msg : String) : ErrorModel := ⟨.Io, msg⟩

/-- `From<redb::Error>` (src/error.rs): tagged `Redb`. -/
def errorFromRedb (msg : String) : ErrorModel := ⟨.Redb, msg⟩

/-- `From<redb::StorageError>` (src/error.rs): tagged `Redb`. -/
def errorFromStorageError (msg : String) : ErrorModel := ⟨.Redb, msg⟩

/-- `From<redb::TableError>` (src/error.rs): tagged `Redb`. -/
def errorFromTableError (msg : String) : ErrorModel := ⟨.Redb, msg⟩

/-- `From<redb::CommitError>` (src/error.rs): tagged `Redb`. -/
def errorFromCommitError (msg : String) : ErrorModel := ⟨.Redb, msg⟩

/-- `From<TantivyError>` (src/error.rs): tagged `Tantivy`. -/
def errorFromTantivyError (msg : String) : ErrorModel := ⟨.Tantivy, msg⟩

/-- `From<QueryParserError>` (src/error.rs): tagged `Tantivy`. -/
def errorFromQueryParserError (msg : String) : ErrorModel := ⟨.Tantivy, msg⟩

/-- `From<redb::DatabaseError>` (src/error.rs lines 85-92): the source
tags this redb error `Tantivy`. -/
def errorFromDatabaseError (msg : String) : ErrorModel := ⟨.Tantivy, msg⟩

/-- `From<OpenDirectoryError>` (src/error.rs): tagged `Tantivy`. -/
def errorFromOpenDirectoryError (msg : String) : ErrorModel := ⟨.Tantivy, msg⟩

/-- `From<redb::TransactionError>` (src/error.rs lines 103-110): the
source tags this redb error `Tantivy`. -/
def errorFromTransactionError (msg : String) : ErrorModel := ⟨.Tantivy, msg⟩

/-! ## FileState binary codec (src/search.rs, `impl RedbValue for Bincode<T>`)

`as_bytes` is `bincode::encode_to_vec(value, bincode::config::standard())`.
The standard configuration encodes unsigned integers with bincode's
variable-length scheme: a value below 251 is one byte; otherwise a marker
byte (251 for u16-, 252 for u32-, 253 for u64-, 254 for u128-sized
payloads) followed by the value in little-endian. A struct is its fields
in order, so `FileStateEntry` encodes as `varint(epoch) ++ varint(hash)`.
The impl's `fixed_width()` returns `None`. -/

/-- `k` little-endian base-256 digits of `n`. -/
def leBytes : Nat → Nat → List Nat
  | 0, _ => []
  | k + 1, n => n % 256 :: leBytes k (n / 256)

/-- Value of a little-endian byte list. -/
def fromLeBytes : List Nat → Nat
  | [] => 0
  | b :: bs => b + 256 * fromLeBytes bs

/-- bincode standard-config variable-length encoding of an unsigned
integer. -/
def varintEncode (n : Nat) : List Nat :=
  if n < 251 then [n]
  else if n < 2 ^ 16 then 251 :: leBytes 2 n
  else if n < 2 ^ 32 then 252 :: leBytes 4 n
  else if n < 2 ^ 64 then 253 :: leBytes 8 n
  else 254 :: leBytes 16 n

/-- bincode standard-config variable-length decoding; returns the value
and the unconsumed rest. -/
def varintDecode (bytes : List Nat) : Option (Nat × List Nat) :=
  match bytes with
  | [] => none
  | b :: bs =>
    if b < 251 then some (b, bs)
    else
      let k : Nat := if b = 251 then 2 else if b = 252 then 4 else if b = 253 then 8 else 16
      if bs.length < k then none
      else some (fromLeBytes (bs.take k), bs.drop k)

/-- Encoding of a stored `FileStateEntry` value: epoch field, then hash
field (bincode standard config, as in `Bincode<T>::as_bytes`). -/
def encodeFileState (e : FileStateEntry) : List Nat :=
  varintEncode e.epoch ++ varintEncode e.hash

/-- Decoding of a stored `FileStateEntry` value, as in
`Bincode<T>::from_bytes` (`decode_from_slice` consumes a prefix). -/
def decodeFileState (bytes : List Nat) : Option FileStateEntry :=
  match varintDecode bytes with
  | none => none
  | some (ep, rest) =>
    match varintDecode rest with
    | none => none
    | some (hs, _) => some ⟨ep, hs⟩

/-- `fixed_width` of the `RedbValue` impl for `Bincode<T>` in
src/search.rs: the source returns `None`. -/
def bincodeFixedWidth : Option Nat := none

theorem leBytes_length (k : Nat) : ∀ n, (leBytes k n).length = k := by
  induction k with
  | zero => intro n; simp [leBytes]
  | succ k ih => intro n; simp [leBytes, ih]

theorem fromLeBytes_leBytes (k : Nat) : ∀ n, n < 256 ^ k → fromLeBytes (leBytes k n) = n := by
  induction k with
  | zero =>
    intro n hn
    simp only [pow_zero, Nat.lt_one_iff] at hn
    simp [hn, leBytes, fromLeBytes]
  | succ k ih =>
    intro n hn
    have hdiv : n / 256 < 256 ^ k := by
      rw [Nat.div_lt_iff_lt_mul (by norm_num)]
      calc n < 256 ^ (k + 1) := hn
        _ = 256 ^ k * 256 := by rw [pow_succ]
    simp only [leBytes, fromLeBytes, ih _ hdiv]
    omega

theorem take_append_self {α : Type} (l₁ l₂ : List α) : (l₁ ++ l₂).take l₁.length = l₁ := by
  induction l₁ with
  | nil => simp
  | cons a t ih => simp [ih]

theorem drop_append_self {α : Type} (l₁ l₂ : List α) : (l₁ ++ l₂).drop l₁.length = l₂ := by
  induction l₁ with
  | nil => simp
  | cons a t ih => simp [ih]

theorem varintDecode_marker (b k n : Nat) (tail : List Nat)
    (hb : ¬ b < 251)
    (hk : (if b = 251 then 2 else if b = 252 then 4 else if b = 253 then 8 else 16) = k)
    (hn : n < 256 ^ k) :
    varintDecode (b :: (leBytes k n ++ tail)) = some (n, tail) := by
  have hlen : ¬ (leBytes k n ++ tail).length < k := by
    simp [leBytes_length]
  have htake : (leBytes k n ++ tail).take k = leBytes k n := by
    have := take_append_self (leBytes k n) tail
    rwa [leBytes_length] at this
  have hdrop : (leBytes k n ++ tail).drop k = tail := by
    have := drop_append_self (leBytes k n) tail
    rwa [leBytes_length] at this
  simp only [varintDecode, hk, if_neg hb, if_neg hlen, htake, hdrop,
    fromLeBytes_leBytes k n hn]

theorem varintDecode_encode (n : Nat) (tail : List Nat) (hn : n < 2 ^ 128) :
    varintDecode (varintEncode n ++ tail) = some (n, tail) := by
  unfold varintEncode
  by_cases h1 : n < 251
  · simp [varintDecode, h1]
  · rw [if_neg h1]
    by_cases h2 : n < 2 ^ 16
    · rw [if_pos h2, List.cons_append]
      exact varintDecode_marker 251 2 n tail (by norm_num) (by norm_num)
        (by norm_num at h2 ⊢; omega)
    · rw [if_neg h2]
      by_cases h3 : n < 2 ^ 32
      · rw [if_pos h3, List.cons_append]
        exact varintDecode_marker 252 4 n tail (by norm_num) (by norm_num)
          (by norm_num at h3 ⊢; omega)
      · rw [if_neg h3]
        by_cases h4 : n < 2 ^ 64
        · rw [if_pos h4, List.cons_append]
          exact varintDecode_marker 253 8 n tail (by norm_num) (by norm_num)
            (by norm_num at h4 ⊢; omega)
        · rw [if_neg h4, List.cons_append]
          exact varintDecode_marker 254 16 n tail (by norm_num) (by norm_num)
            (by norm_num at hn ⊢; omega)

/-! ## Read transaction: search and fragment extraction
(src/search.rs, `FileSearchReadTransaction::search`, lines 95-142)

The tantivy analyzer configured at index time for the `content` field
(`schema::TEXT`) is the default chain: simple tokenizer (maximal runs of
alphanumeric characters, with byte offsets into the original text),
remove-long filter (drop tokens of 40 bytes or more), lowercase filter.
It is an external collaborator; the model below restricts alphanumeric to
ASCII. The fragment-building loop over the token stream is the repository
code and is mirrored exactly. -/

/-- A token of the analyzer stream: text plus half-open byte-offset
range. -/
structure Token where
  text : String
  offsetFrom : Nat
  offsetTo : Nat
deriving DecidableEq, Repr

/-- Lowercase a string (char-by-char; structural so it evaluates in the
kernel). -/
def lowerString (s : String) : String := String.mk (s.data.map Char.toLower)

/-- Simple tokenizer: scan the characters tracking the byte position,
cutting maximal alphanumeric runs into tokens whose offsets are byte
offsets in the original text. `cur` carries the start offset and the
reversed characters of the run in progress. -/
def tokenizeAux : List Char → Nat → Option (Nat × List Char) → List Token
  | [], _, none => []
  | [], pos, some (st, acc) => [⟨String.mk acc.reverse, st, pos⟩]
  | c :: cs, pos, cur =>
    if c.isAlphanum then
      match cur with
      | none => tokenizeAux cs (pos + c.utf8Size) (some (pos, [c]))
      | some (st, acc) => tokenizeAux cs (pos + c.utf8Size) (some (st, c :: acc))
    else
      match cur with
      | none => tokenizeAux cs (pos + c.utf8Size) none
      | some (st, acc) => ⟨String.mk acc.reverse, st, pos⟩ :: tokenizeAux cs (pos + c.utf8Size) none

/-- The index-time analyzer for the `content` field: simple tokenizer,
then remove-long filter (40 bytes), then lowercase. -/
def analyzeContent (s : String) : List Token :=
  ((tokenizeAux s.data 0 none).filter (fun t => decide (t.text.utf8ByteSize < 40))).map
    (fun t => { t with text := lowerString t.text })

/-- Append a byte-offset range to a term's fragment list, creating the
entry when absent (models `fragments.entry(t).or_default().push(r)` on the
HashMap, with keys listed in first-insertion order). -/
def pushRange (m : List (String × List (Nat × Nat))) (key : String) (r : Nat × Nat) :
    List (String × List (Nat × Nat)) :=
  match m with
  | [] => [(key, [r])]
  | (k, rs) :: rest =>
    if k = key then (k, rs ++ [r]) :: rest else (k, rs) :: pushRange rest key r

/-- One iteration of the token-stream loop in `search` (src/search.rs
lines 120-129): lowercase the token text; if it is in the extracted term
set, append its byte-offset range to that term's list. -/
def fragmentStep (terms : List String) (m : List (String × List (Nat × Nat)))
    (t : Token) : List (String × List (Nat × Nat)) :=
  let lt := lowerString t.text
  if lt ∈ terms then pushRange m lt (t.offsetFrom, t.offsetTo) else m

/-- Run the token-stream loop from an accumulator. -/
def buildFragmentsFrom (terms : List String) :
    List (String × List (Nat × Nat)) → List Token → List (String × List (Nat × Nat))
  | m, [] => m
  | m, t :: ts => buildFragmentsFrom terms (fragmentStep terms m t) ts

/-- The fragments map a hit gets: the loop of src/search.rs lines 114-130,
run over the re-tokenized stored content's token stream from the empty
map. -/
def buildFragments (terms : List String) (tokens : List Token) :
    List (String × List (Nat × Nat)) :=
  buildFragmentsFrom terms [] tokens

/-- Ranges recorded for a term in a fragments map (empty when the term has
no entry). -/
def lookupRanges (m : List (String × List (Nat × Nat))) (k : String) : List (Nat × Nat) :=
  match m with
  | [] => []
  | (k', rs) :: rest => if k' = k then rs else lookupRanges rest k

/-- Model of splitting a query string on spaces (structural, so it
evaluates in the kernel). -/
def splitTokens : List Char → List Char → List String
  | [], acc => [String.mk acc.reverse]
  | c :: cs, acc =>
    if c = ' ' then String.mk acc.reverse :: splitTokens cs []
    else splitTokens cs (c :: acc)

/-- Boolean prefix test on character lists. -/
def hasPrefixChars : List Char → List Char → Bool
  | [], _ => true
  | _ :: _, [] => false
  | a :: as, b :: bs => a == b && hasPrefixChars as bs

/-- Model of the external tantivy query parser's leaf-term extraction
(`query.query_terms` over the tree parsed by `QueryParser::for_index`
with default field `content`): for each word, strip an explicit
`content:` field prefix and analyze the leaf into its lowercased term
text. -/
def extractQueryTerms (q : String) : List String :=
  (splitTokens q.data []).map fun w =>
    lowerString (if hasPrefixChars "content:".data w.data then String.mk (w.data.drop 8) else w)

/-- Model of `FileSearchReadTransaction::search` over the committed
documents: the external engine returns the documents matching a leaf term
of the parsed query (relevance order opaque; a single-document index has
at most one hit); for each hit the repository code re-tokenizes the
stored content and builds the fragments map. A hit is the stored `path`
with its fragments. -/
def searchHits (docs : List (String × String)) (q : String) :
    List (String × List (String × List (Nat × Nat))) :=
  let terms := extractQueryTerms q
  (docs.filter fun d =>
      (analyzeContent d.2).any fun t => decide (lowerString t.text ∈ terms)).map
    fun d => (d.1, buildFragments terms (analyzeContent d.2))

/-! ## Session controller (src/shell.rs)

`Shell` holds at most one open write transaction. The commit/rollback of
the two external back-ends are injected as `Except` outcomes; `runQuery`
abstracts `open_read().and_then(|r| r.search(q, None))`. Observable
behavior is returned as event lists: `CommitEvent`s record which back-end
commits were attempted and in which order, `ShellEvent`s record what the
controller printed or did. -/

/-- Mirrors `Shell` (src/shell.rs): the optional open write session. -/
structure Shell where
  writer : Option WriteTxn

/-- The committed state of the two back-ends (redb store and tantivy
index). -/
structure World where
  store : String → Option FileStateEntry
  index : List (String × String)

/-- A back-end commit attempt made by `commit()`. -/
inductive CommitEvent where
  | engineCommit
  | storeCommit
deriving DecidableEq, Repr

/-- Observable controller actions. -/
inductive ShellEvent where
  | engineQueried (query : String)
  | printedJson (json : String)
  | stderrUncommitted
  | stderrSearchFailed
  | stderrNothingToCommit
  | stderrNothingToRollback
  | stderrCommitFailed
  | stderrRollbackFailed
  | stderrChangeFailed
  | stderrResolveFailed (path : String)
deriving DecidableEq, Repr

namespace FileSearchWriteTransaction

/-- Mirrors `FileSearchWriteTransaction::commit` (src/search.rs lines
218-222): `self.writer.commit()?; self.txn.commit()?`. The outcomes of
the two external commits are the parameters; the event list records the
attempts in order. The store commit is attempted only when the engine
commit succeeded (the `?` operator). -/
def commit (engineRes storeRes : Except ErrorModel Unit) (_w : WriteTxn) :
    Except ErrorModel Unit × List CommitEvent :=
  match engineRes with
  | .error e => (.error e, [.engineCommit])
  | .ok _ =>
    match storeRes with
    | .error e => (.error e, [.engineCommit, .storeCommit])
    | .ok _ => (.ok (), [.engineCommit, .storeCommit])

/-- Mirrors `FileSearchWriteTransaction::rollback` (src/search.rs lines
224-228): `self.writer.rollback()?; self.txn.abort()?`. -/
def rollback (engineRes storeRes : Except ErrorModel Unit) (_w : WriteTxn) :
    Except ErrorModel Unit :=
  match engineRes with
  | .error e => .error e
  | .ok _ => storeRes

end FileSearchWriteTransaction

/-! ## Fallible write-session operations

`FileSearchWriteTransaction.add/remove/clear` above model the redb table
calls and the tantivy writer calls as succeeding, which is exact for the
decision logic but hides that in the source `open_table`/`get`/`insert`/
`remove`/`add_document`/`delete_all_documents` are each fallible and that
the `&mut self` operations keep whatever mutations they performed before
a later call failed. The refinement below injects an outcome for every
such call (a `BackendOracle`, like the injected outcomes of `commit`) and
returns the partially mutated session alongside the error, mirroring the
source statement-for-statement. With the all-succeeding oracle it
coincides with the infallible model (theorems `WriteFallible.add_allOk`,
`WriteFallible.remove_allOk`, `WriteFallible.clear_allOk` below). -/

/-- Injected outcomes of the fallible redb/tantivy calls made inside one
write-session operation: `true` means the call succeeds. `clearSurvives`
describes, when `clear`'s key-removal phase fails midway, which keys had
not yet been removed (the source removes keys one by one, so any failure
leaves an arbitrary such partition). -/
structure BackendOracle where
  getStateOk : String → Bool
  insertStateOk : String → Bool
  removeStateOk : String → Bool
  addDocumentOk : String → Bool
  clearStateOk : Bool
  clearSurvives : String → Bool
  deleteAllOk : Bool

namespace WriteFallible

/-- `get_from_state` (src/search.rs 244-247) with its
`open_table`/`get` failure point; reads only. -/
def get_from_state (o : BackendOracle) (path : String) (st : WriteTxn) :
    Except ErrorModel (Option FileStateEntry) :=
  if o.getStateOk path then .ok (st.table path)
  else .error ⟨.Redb, "state get failed"⟩

/-- `insert_into_state` (src/search.rs 249-253) with its
`open_table`/`insert` failure point: on failure the table is unchanged. -/
def insert_into_state (o : BackendOracle) (path : String) (entry : FileStateEntry)
    (st : WriteTxn) : WriteTxn × Except ErrorModel Unit :=
  if o.insertStateOk path then
    ({ st with table := fun q => if q = path then some entry else st.table q }, .ok ())
  else (st, .error ⟨.Redb, "state insert failed"⟩)

/-- `delete_from_state` (src/search.rs 263-267) with its
`open_table`/`remove` failure point. -/
def delete_from_state (o : BackendOracle) (path : String) (st : WriteTxn) :
    WriteTxn × Except ErrorModel Unit :=
  if o.removeStateOk path then
    ({ st with table := fun q => if q = path then none else st.table q }, .ok ())
  else (st, .error ⟨.Redb, "state remove failed"⟩)

/-- `insert_into_index` (src/search.rs 255-261) with its `add_document`
failure point. -/
def insert_into_index (o : BackendOracle) (path content : String) (st : WriteTxn) :
    WriteTxn × Except ErrorModel Unit :=
  if o.addDocumentOk path then
    ({ st with staged := st.staged ++ [.addDocument path content] }, .ok ())
  else (st, .error ⟨.Tantivy, "add document failed"⟩)

/-- `delete_from_index` (src/search.rs 269-273): `writer.delete_term`
returns an opstamp, not a `Result` — it cannot fail. -/
def delete_from_index (path : String) (st : WriteTxn) : WriteTxn :=
  { st with staged := st.staged ++ [.deleteTerm path] }

/-- `add` (src/search.rs 171-196) with every failure point of the source
in source order; a failure returns the session with exactly the
mutations performed before it (e.g. the staged delete and document when
the final state upsert fails on the changed-hash path, or the inserted
state when `add_document` fails on the fresh path). -/
def add (o : BackendOracle) (h : String → Nat) (fs : FileSystem) (path : String)
    (st : WriteTxn) : WriteTxn × Except ErrorModel Unit :=
  match FileSearchWriteTransaction.get_file_epoch fs path with
  | .error e => (st, .error e)
  | .ok epoch =>
    match get_from_state o path st with
    | .error e => (st, .error e)
    | .ok (some state) =>
      if state.epoch = epoch then (st, .ok ())
      else
        match FileSearchWriteTransaction.get_file_data h fs path with
        | .error e => (st, .error e)
        | .ok (content, hsh) =>
          if state.hash = hsh then
            insert_into_state o path ⟨epoch, hsh⟩ st
          else
            match insert_into_index o path content (delete_from_index path st) with
            | (st2, .error e) => (st2, .error e)
            | (st2, .ok _) => insert_into_state o path ⟨epoch, hsh⟩ st2
    | .ok none =>
      match FileSearchWriteTransaction.get_file_data h fs path with
      | .error e => (st, .error e)
      | .ok (content, hsh) =>
        match insert_into_state o path ⟨epoch, hsh⟩ st with
        | (st1, .error e) => (st1, .error e)
        | (st1, .ok _) => insert_into_index o path content st1

/-- `remove` (src/search.rs 198-201): `delete_from_index` stages the
delete unconditionally (it cannot fail), then `delete_from_state` may
fail — leaving the already-staged delete in the session. -/
def remove (o : BackendOracle) (path : String) (st : WriteTxn) :
    WriteTxn × Except ErrorModel Unit :=
  delete_from_state o path (delete_from_index path st)

/-- `clear` (src/search.rs 203-216): the key-enumeration/removal phase
may fail (leaving the keys in `clearSurvives` still present), then
`delete_all_documents` may fail after the table was already emptied. -/
def clear (o : BackendOracle) (st : WriteTxn) : WriteTxn × Except ErrorModel Unit :=
  if o.clearStateOk then
    if o.deleteAllOk then
      ({ table := fun _ => none, staged := st.staged ++ [.deleteAll] }, .ok ())
    else
      ({ st with table := fun _ => none }, .error ⟨.Tantivy, "delete all failed"⟩)
  else
    ({ st with table := fun q => if o.clearSurvives q then st.table q else none },
     .error ⟨.Redb, "state clear failed"⟩)

end WriteFallible

namespace Shell

/-- Mirrors `Shell::resolve_file_path` (src/shell.rs lines 182-194):
`fs::metadata` must succeed and report a regular file. -/
def resolve_file_path (fs : FileSystem) (path : String) : Option String :=
  match fs.meta path with
  | some m => if m.isFile then some path else none
  | none => none

/-- Mirrors `Shell::get_or_create_writer` (src/shell.rs lines 157-166):
reuse the open session or open a fresh one. A fresh redb write
transaction sees the committed store and the fresh tantivy writer has
nothing staged. -/
def get_or_create_writer (world : World) (sh : Shell) : Shell :=
  match sh.writer with
  | some _ => sh
  | none => ⟨some ⟨world.store, []⟩⟩

/-- Mirrors `Shell::with_writer` (src/shell.rs lines 168-180): obtain the
writer (opening one first if none is open), run the staged operation on
it (`f` returns the session as the operation left it — partial mutations
retained on failure, as through `&mut self`); a failure is reported and
the session stays open. -/
def with_writer (world : World) (sh : Shell)
    (f : WriteTxn → WriteTxn × Except ErrorModel Unit) :
    Shell × List ShellEvent :=
  match (get_or_create_writer world sh).writer with
  | some w =>
    match f w with
    | (w', .ok _) => (⟨some w'⟩, [])
    | (w', .error _) => (⟨some w'⟩, [.stderrChangeFailed])
  | none => (get_or_create_writer world sh, [])

/-- Mirrors `Shell::handle_add_command` (src/shell.rs lines 127-131). -/
def handle_add_command (o : BackendOracle) (h : String → Nat) (fs : FileSystem)
    (world : World) (sh : Shell) (path : String) : Shell × List ShellEvent :=
  match resolve_file_path fs path with
  | some p => with_writer world sh (WriteFallible.add o h fs p)
  | none => (sh, [.stderrResolveFailed path])

/-- Mirrors `Shell::handle_remove_command` (src/shell.rs lines 133-137). -/
def handle_remove_command (o : BackendOracle) (fs : FileSystem) (world : World)
    (sh : Shell) (path : String) : Shell × List ShellEvent :=
  match resolve_file_path fs path with
  | some p => with_writer world sh (WriteFallible.remove o p)
  | none => (sh, [.stderrResolveFailed path])

/-- Mirrors `Shell::handle_clear_command` (src/shell.rs lines 88-90). -/
def handle_clear_command (o : BackendOracle) (world : World) (sh : Shell) :
    Shell × List ShellEvent :=
  with_writer world sh (WriteFallible.clear o)

/-- Mirrors `Shell::handle_search_command` (src/shell.rs lines 139-155):
with no open write session, hand the query to the read path (`runQuery`
abstracts `open_read().and_then(search)`) and print the result; with an
open session, print the uncommitted-changes error and touch the engine
not at all. -/
def handle_search_command (runQuery : String → Except ErrorModel String)
    (sh : Shell) (query : String) : Shell × List ShellEvent :=
  match sh.writer with
  | none =>
    match runQuery query with
    | .ok json => (sh, [.engineQueried query, .printedJson json])
    | .error _ => (sh, [.engineQueried query, .stderrSearchFailed])
  | some _ => (sh, [.stderrUncommitted])

/-- Mirrors `Shell::handle_commit_command` (src/shell.rs lines 105-114):
`self.writer.take()` consumes the session before `commit()` runs; a
failure is only reported. -/
def handle_commit_command (engineRes storeRes : Except ErrorModel Unit)
    (sh : Shell) : Shell × List CommitEvent × List ShellEvent :=
  match sh.writer with
  | some w =>
    match FileSearchWriteTransaction.commit engineRes storeRes w with
    | (.ok _, cev) => (⟨none⟩, cev, [])
    | (.error _, cev) => (⟨none⟩, cev, [.stderrCommitFailed])
  | none => (sh, [], [.stderrNothingToCommit])

/-- Mirrors `Shell::handle_rollback_command` (src/shell.rs lines
116-125): `take()` consumes the session; a failure is only reported. -/
def handle_rollback_command (engineRes storeRes : Except ErrorModel Unit)
    (sh : Shell) : Shell × List ShellEvent :=
  match sh.writer with
  | some w =>
    match FileSearchWriteTransaction.rollback engineRes storeRes w with
    | .ok _ => (⟨none⟩, [])
    | .error _ => (⟨none⟩, [.stderrRollbackFailed])
  | none => (sh, [.stderrNothingToRollback])

end Shell

/-! ## Fragment-map lemmas -/

theorem lookupRanges_pushRange (m : List (String × List (Nat × Nat))) (key k : String)
    (r : Nat × Nat) :
    lookupRanges (pushRange m key r) k =
      if k = key then lookupRanges m k ++ [r] else lookupRanges m k := by
  induction m with
  | nil =>
    by_cases hk : k = key
    · subst hk; simp [pushRange, lookupRanges]
    · simp [pushRange, lookupRanges, hk, Ne.symm hk]
  | cons hd tl ih =>
    obtain ⟨a, rs⟩ := hd
    by_cases hak : a = key
    · subst hak
      by_cases hk : k = a
      · subst hk; simp [pushRange, lookupRanges]
      · simp [pushRange, lookupRanges, hk, Ne.symm hk]
    · by_cases hk : a = k
      · subst hk
        simp [pushRange, lookupRanges, hak, Ne.symm hak]
      · simp [pushRange, lookupRanges, hak, hk, ih]

theorem lookupRanges_buildFragmentsFrom (terms : List String) (term : String) :
    ∀ (toks : List Token) (m : List (String × List (Nat × Nat))),
      lookupRanges (buildFragmentsFrom terms m toks) term =
        lookupRanges m term ++
          (if term ∈ terms then
            (toks.filter fun t => decide (lowerString t.text = term)).map
              fun t => (t.offsetFrom, t.offsetTo)
          else []) := by
  intro toks
  induction toks with
  | nil => intro m; simp [buildFragmentsFrom]
  | cons t ts ih =>
    intro m
    simp only [buildFragmentsFrom, ih, fragmentStep]
    by_cases hlt : lowerString t.text ∈ terms
    · rw [if_pos hlt, lookupRanges_pushRange]
      by_cases heq : term = lowerString t.text
      · subst heq
        rw [if_pos rfl, if_pos hlt, if_pos hlt, List.filter_cons_of_pos (by simp)]
        simp [List.append_assoc]
      · rw [if_neg heq]
        by_cases hterm : term ∈ terms
        · rw [if_pos hterm, if_pos hterm, List.filter_cons_of_neg ?_]
          simp only [decide_eq_true_eq]
          intro hh
          exact heq hh.symm
        · rw [if_neg hterm, if_neg hterm]
    · rw [if_neg hlt]
      by_cases hterm : term ∈ terms
      · rw [if_pos hterm, if_pos hterm, List.filter_cons_of_neg ?_]
        simp only [decide_eq_true_eq]
        intro h
        exact hlt (h ▸ hterm)
      · rw [if_neg hterm, if_neg hterm]

/-! ## Additional `add` case lemmas -/

namespace FileSearchWriteTransaction

theorem add_read_missing_some (h : String → Nat) (fs : FileSystem) (path : String)
    (st : WriteTxn) (m : FileMeta) (s : FileStateEntry)
    (hm : fs.meta path = some m) (ht : st.table path = some s)
    (hne : s.epoch ≠ m.mtimeMillis) (hc : fs.content path = none) :
    add h fs path st = .error ⟨.Io, "read failed"⟩ := by
  simp [add, get_file_epoch, get_file_data, hm, ht, hne, hc]

theorem add_read_missing_none (h : String → Nat) (fs : FileSystem) (path : String)
    (st : WriteTxn) (m : FileMeta)
    (hm : fs.meta path = some m) (ht : st.table path = none)
    (hc : fs.content path = none) :
    add h fs path st = .error ⟨.Io, "read failed"⟩ := by
  simp [add, get_file_epoch, get_file_data, hm, ht, hc]

end FileSearchWriteTransaction

/-! ## The fallible model specializes to the infallible one -/

/-- Backend outcomes where every redb/tantivy call succeeds. -/
def allOkOracle : BackendOracle :=
  { getStateOk := fun _ => true, insertStateOk := fun _ => true,
    removeStateOk := fun _ => true, addDocumentOk := fun _ => true,
    clearStateOk := true, clearSurvives := fun _ => true, deleteAllOk := true }

/-- With an all-succeeding backend the fallible `add` coincides with the
infallible model: the same resulting session on success, and an untouched
session on the (file-I/O) failures that remain. -/
theorem WriteFallible.add_allOk (h : String → Nat) (fs : FileSystem) (p : String)
    (st : WriteTxn) :
    (∀ st' ev, FileSearchWriteTransaction.add h fs p st = .ok (st', ev) →
      WriteFallible.add allOkOracle h fs p st = (st', .ok ())) ∧
    (∀ e, FileSearchWriteTransaction.add h fs p st = .error e →
      WriteFallible.add allOkOracle h fs p st = (st, .error e)) := by
  cases hm : fs.meta p with
  | none =>
    constructor
    · intro st' ev hAdd
      rw [FileSearchWriteTransaction.add_meta_missing h fs p st hm] at hAdd
      exact absurd hAdd (by simp)
    · intro e hAdd
      rw [FileSearchWriteTransaction.add_meta_missing h fs p st hm] at hAdd
      simp only [Except.error.injEq] at hAdd
      subst hAdd
      simp [WriteFallible.add, FileSearchWriteTransaction.get_file_epoch, hm]
  | some m =>
    cases ht : st.table p with
    | some s =>
      by_cases he : s.epoch = m.mtimeMillis
      · constructor
        · intro st' ev hAdd
          rw [FileSearchWriteTransaction.add_skip h fs p st m s hm ht he] at hAdd
          simp only [Except.ok.injEq, Prod.mk.injEq] at hAdd
          obtain ⟨hst, hev⟩ := hAdd
          subst hst
          simp [WriteFallible.add, WriteFallible.get_from_state,
            FileSearchWriteTransaction.get_file_epoch, allOkOracle, hm, ht, he]
        · intro e hAdd
          rw [FileSearchWriteTransaction.add_skip h fs p st m s hm ht he] at hAdd
          exact absurd hAdd (by simp)
      · cases hc : fs.content p with
        | none =>
          constructor
          · intro st' ev hAdd
            rw [FileSearchWriteTransaction.add_read_missing_some h fs p st m s hm ht he hc]
              at hAdd
            exact absurd hAdd (by simp)
          · intro e hAdd
            rw [FileSearchWriteTransaction.add_read_missing_some h fs p st m s hm ht he hc]
              at hAdd
            simp only [Except.error.injEq] at hAdd
            subst hAdd
            simp [WriteFallible.add, WriteFallible.get_from_state,
              FileSearchWriteTransaction.get_file_epoch,
              FileSearchWriteTransaction.get_file_data, allOkOracle, hm, ht, he, hc]
        | some c =>
          by_cases hh : s.hash = h c
          · constructor
            · intro st' ev hAdd
              rw [FileSearchWriteTransaction.add_metadata_only h fs p st m s c hm ht he hc hh]
                at hAdd
              simp only [Except.ok.injEq, Prod.mk.injEq] at hAdd
              obtain ⟨hst, hev⟩ := hAdd
              subst hst
              simp [WriteFallible.add, WriteFallible.get_from_state,
                WriteFallible.insert_into_state,
                FileSearchWriteTransaction.get_file_epoch,
                FileSearchWriteTransaction.get_file_data,
                FileSearchWriteTransaction.insert_into_state, allOkOracle,
                hm, ht, he, hc, hh]
            · intro e hAdd
              rw [FileSearchWriteTransaction.add_metadata_only h fs p st m s c hm ht he hc hh]
                at hAdd
              exact absurd hAdd (by simp)
          · constructor
            · intro st' ev hAdd
              rw [FileSearchWriteTransaction.add_reindex_changed h fs p st m s c hm ht he hc hh]
                at hAdd
              simp only [Except.ok.injEq, Prod.mk.injEq] at hAdd
              obtain ⟨hst, hev⟩ := hAdd
              subst hst
              simp [WriteFallible.add, WriteFallible.get_from_state,
                WriteFallible.insert_into_state, WriteFallible.insert_into_index,
                WriteFallible.delete_from_index,
                FileSearchWriteTransaction.get_file_epoch,
                FileSearchWriteTransaction.get_file_data,
                FileSearchWriteTransaction.insert_into_state,
                FileSearchWriteTransaction.insert_into_index,
                FileSearchWriteTransaction.delete_from_index, allOkOracle,
                hm, ht, he, hc, hh]
            · intro e hAdd
              rw [FileSearchWriteTransaction.add_reindex_changed h fs p st m s c hm ht he hc hh]
                at hAdd
              exact absurd hAdd (by simp)
    | none =>
      cases hc : fs.content p with
      | none =>
        constructor
        · intro st' ev hAdd
          rw [FileSearchWriteTransaction.add_read_missing_none h fs p st m hm ht hc] at hAdd
          exact absurd hAdd (by simp)
        · intro e hAdd
          rw [FileSearchWriteTransaction.add_read_missing_none h fs p st m hm ht hc] at hAdd
          simp only [Except.error.injEq] at hAdd
          subst hAdd
          simp [WriteFallible.add, WriteFallible.get_from_state,
            FileSearchWriteTransaction.get_file_epoch,
            FileSearchWriteTransaction.get_file_data, allOkOracle, hm, ht, hc]
      | some c =>
        constructor
        · intro st' ev hAdd
          rw [FileSearchWriteTransaction.add_fresh h fs p st m c hm ht hc] at hAdd
          simp only [Except.ok.injEq, Prod.mk.injEq] at hAdd
          obtain ⟨hst, hev⟩ := hAdd
          subst hst
          simp [WriteFallible.add, WriteFallible.get_from_state,
            WriteFallible.insert_into_state, WriteFallible.insert_into_index,
            FileSearchWriteTransaction.get_file_epoch,
            FileSearchWriteTransaction.get_file_data,
            FileSearchWriteTransaction.insert_into_state,
            FileSearchWriteTransaction.insert_into_index, allOkOracle, hm, ht, hc]
        · intro e hAdd
          rw [FileSearchWriteTransaction.add_fresh h fs p st m c hm ht hc] at hAdd
          exact absurd hAdd (by simp)

/-- With an all-succeeding backend the fallible `remove` coincides with
the infallible model. -/
theorem WriteFallible.remove_allOk (p : String) (st : WriteTxn) :
    WriteFallible.remove allOkOracle p st =
      (FileSearchWriteTransaction.delete_from_state p
        (FileSearchWriteTransaction.delete_from_index p st), .ok ()) := by
  simp [WriteFallible.remove, WriteFallible.delete_from_state,
    WriteFallible.delete_from_index, FileSearchWriteTransaction.delete_from_state,
    FileSearchWriteTransaction.delete_from_index, allOkOracle]

/-- With an all-succeeding backend the fallible `clear` coincides with
the infallible model. -/
theorem WriteFallible.clear_allOk (st : WriteTxn) :
    WriteFallible.clear allOkOracle st =
      ({ table := fun _ => none, staged := st.staged ++ [.deleteAll] }, .ok ()) := by
  simp [WriteFallible.clear, allOkOracle]

/-! ## Concrete gadgets used by the witnesses -/

/-- Concrete content hasher used for witnesses (any pure `String → Nat`
stands in for xxh3_64). -/
def hashLen : String → Nat := String.length

/-- A file system with one readable file `a`: mtime 10, content `xy`. -/
def fsSkip : FileSystem :=
  ⟨fun q => if q = "a" then some ⟨true, 10⟩ else none,
   fun q => if q = "a" then some "xy" else none⟩

/-- Write session storing `a` with the current epoch 10. -/
def stSkip : WriteTxn := ⟨fun q => if q = "a" then some ⟨10, 2⟩ else none, []⟩

/-- Write session storing `a` with a stale epoch 5 but the current
content hash 2. -/
def stBump : WriteTxn := ⟨fun q => if q = "a" then some ⟨5, 2⟩ else none, []⟩

/-- A file system with one readable file `b`: mtime 7, content `hello`. -/
def fsFresh : FileSystem :=
  ⟨fun q => if q = "b" then some ⟨true, 7⟩ else none,
   fun q => if q = "b" then some "hello" else none⟩

/-- Write session storing `b` with stale epoch and a different hash. -/
def stChanged : WriteTxn := ⟨fun q => if q = "b" then some ⟨5, 99⟩ else none, []⟩

/-- The session state after a first fresh `add b` against `fsFresh`. -/
def stAfterFresh : WriteTxn :=
  ⟨fun q => if q = "b" then some ⟨7, 5⟩ else none, [.addDocument "b" "hello"]⟩

/-- A shell with an open (empty) write session. -/
def shPending : Shell := ⟨some ⟨fun _ => none, []⟩⟩

/-- A file system where `a` has accessible metadata but unreadable
content. -/
def fsBroken : FileSystem :=
  ⟨fun q => if q = "a" then some ⟨true, 3⟩ else none, fun _ => none⟩

/-- Empty committed back-end state. -/
def worldEmpty : World := ⟨fun _ => none, []⟩

/-- Backend outcomes where only the state-table remove fails. -/
def oracleRemoveFails : BackendOracle :=
  { getStateOk := fun _ => true, insertStateOk := fun _ => true,
    removeStateOk := fun _ => false, addDocumentOk := fun _ => true,
    clearStateOk := true, clearSurvives := fun _ => true, deleteAllOk := true }

/-! ## The claims -/

/-- Claim C1: for `add(p)` in an open write session, if a FileState is
stored for `p` with epoch equal to the current modification epoch, `add`
performs only a metadata probe and leaves the session (stored FileState
and staged index operations) unchanged; if a FileState is stored, its
epoch differs, and the recomputed content hash equals the stored hash,
`add` updates only the stored epoch at `p` (hash unchanged, no other key
touched) and stages no index mutation. -/
theorem claim_C1_skip_and_metadata_only (h : String → Nat) (fs : FileSystem)
    (p : String) (st : WriteTxn) (m : FileMeta) (s : FileStateEntry)
    (hm : fs.meta p = some m) (ht : st.table p = some s) :
    (s.epoch = m.mtimeMillis →
      FileSearchWriteTransaction.add h fs p st = .ok (st, [.probe p])) ∧
    (∀ c, s.epoch ≠ m.mtimeMillis → fs.content p = some c → s.hash = h c →
      FileSearchWriteTransaction.add h fs p st =
        .ok ({ st with
                table := fun q => if q = p then some ⟨m.mtimeMillis, s.hash⟩ else st.table q },
             [.probe p, .readContent p])) := by
  constructor
  · intro he
    exact FileSearchWriteTransaction.add_skip h fs p st m s hm ht he
  · intro c hne hc hh
    rw [FileSearchWriteTransaction.add_metadata_only h fs p st m s c hm ht hne hc hh, hh]
    rfl

theorem claim_C1_witness :
    fsSkip.meta "a" = some ⟨true, 10⟩ ∧ stSkip.table "a" = some ⟨10, 2⟩ ∧
    stBump.table "a" = some ⟨5, 2⟩ ∧ FileStateEntry.epoch ⟨5, 2⟩ ≠ (10 : Nat) ∧
    fsSkip.content "a" = some "xy" ∧ FileStateEntry.hash ⟨5, 2⟩ = hashLen "xy" ∧
    FileSearchWriteTransaction.add hashLen fsSkip "a" stSkip = .ok (stSkip, [.probe "a"]) ∧
    FileSearchWriteTransaction.add hashLen fsSkip "a" stBump =
      .ok ({ stBump with
              table := fun q => if q = "a" then some ⟨10, 2⟩ else stBump.table q },
           [.probe "a", .readContent "a"]) := by
  refine ⟨rfl, rfl, rfl, by decide, rfl, rfl, ?_, ?_⟩
  · exact (claim_C1_skip_and_metadata_only hashLen fsSkip "a" stSkip ⟨true, 10⟩ ⟨10, 2⟩
      rfl rfl).1 rfl
  · exact (claim_C1_skip_and_metadata_only hashLen fsSkip "a" stBump ⟨true, 10⟩ ⟨5, 2⟩
      rfl rfl).2 "xy" (by decide) rfl rfl

/-- Counterexample to claim C2 as stated: on the REINDEX path with no
stored FileState (here: fresh file `b`, empty session), `add` stages no
delete at all before the insert — the staged operations are exactly one
`addDocument`, with no `deleteTerm` for the path. -/
theorem claim_C2_counterexample :
    WriteTxn.table ⟨fun _ => none, []⟩ "b" = none ∧
    FileSearchWriteTransaction.add hashLen fsFresh "b" ⟨fun _ => none, []⟩ =
      .ok (⟨fun q => if q = "b" then some ⟨7, 5⟩ else none, [.addDocument "b" "hello"]⟩,
           [.probe "b", .readContent "b"]) ∧
    IndexOp.deleteTerm "b" ∉ [IndexOp.addDocument "b" "hello"] := by
  refine ⟨rfl, rfl, by decide⟩

/-- Claim C2 as amended: on the REINDEX path, if a FileState is stored
and the recomputed hash differs, `add` stages the delete of the stale
document keyed by `p` and then the insert of the fresh document, and
upserts FileState{epoch, hash}; if no FileState is stored, `add` upserts
FileState{epoch, hash} and stages only the insert of the fresh document,
with no delete. -/
theorem claim_C2_amended (h : String → Nat) (fs : FileSystem) (p : String)
    (st : WriteTxn) (m : FileMeta) (c : String)
    (hm : fs.meta p = some m) (hc : fs.content p = some c) :
    (st.table p = none →
      FileSearchWriteTransaction.add h fs p st =
        .ok ({ table := fun q => if q = p then some ⟨m.mtimeMillis, h c⟩ else st.table q,
               staged := st.staged ++ [.addDocument p c] },
             [.probe p, .readContent p])) ∧
    (∀ s, st.table p = some s → s.epoch ≠ m.mtimeMillis → s.hash ≠ h c →
      FileSearchWriteTransaction.add h fs p st =
        .ok ({ table := fun q => if q = p then some ⟨m.mtimeMillis, h c⟩ else st.table q,
               staged := st.staged ++ [.deleteTerm p, .addDocument p c] },
             [.probe p, .readContent p])) := by
  constructor
  · intro ht
    rw [FileSearchWriteTransaction.add_fresh h fs p st m c hm ht hc]
    rfl
  · intro s ht hne hh
    rw [FileSearchWriteTransaction.add_reindex_changed h fs p st m s c hm ht hne hc hh]
    simp only [FileSearchWriteTransaction.insert_into_state,
      FileSearchWriteTransaction.insert_into_index,
      FileSearchWriteTransaction.delete_from_index, List.append_assoc,
      List.singleton_append, List.cons_append, List.nil_append]

theorem claim_C2_amended_witness :
    fsFresh.meta "b" = some ⟨true, 7⟩ ∧ fsFresh.content "b" = some "hello" ∧
    WriteTxn.table ⟨fun _ => none, []⟩ "b" = none ∧
    stChanged.table "b" = some ⟨5, 99⟩ ∧
    FileStateEntry.epoch ⟨5, 99⟩ ≠ (7 : Nat) ∧
    FileStateEntry.hash ⟨5, 99⟩ ≠ hashLen "hello" ∧
    FileSearchWriteTransaction.add hashLen fsFresh "b" ⟨fun _ => none, []⟩ =
      .ok ({ table := fun q => if q = "b" then some ⟨7, 5⟩
                               else WriteTxn.table ⟨fun _ => none, []⟩ q,
             staged := WriteTxn.staged ⟨fun _ => none, []⟩ ++ [.addDocument "b" "hello"] },
           [.probe "b", .readContent "b"]) ∧
    FileSearchWriteTransaction.add hashLen fsFresh "b" stChanged =
      .ok ({ table := fun q => if q = "b" then some ⟨7, 5⟩ else stChanged.table q,
             staged := stChanged.staged ++ [.deleteTerm "b", .addDocument "b" "hello"] },
           [.probe "b", .readContent "b"]) := by
  refine ⟨rfl, rfl, rfl, rfl, by decide, by decide, ?_, ?_⟩
  · exact (claim_C2_amended hashLen fsFresh "b" ⟨fun _ => none, []⟩ ⟨true, 7⟩ "hello"
      rfl rfl).1 rfl
  · exact (claim_C2_amended hashLen fsFresh "b" stChanged ⟨true, 7⟩ "hello"
      rfl rfl).2 ⟨5, 99⟩ rfl (by decide) (by decide)

/-- Claim C5: `add` is idempotent under an unchanged file: whenever a
first `add(p)` succeeds (against any session state), a second `add(p)`
against the unchanged file performs only a metadata probe and returns
exactly the session state the first call produced; both calls start with
a metadata probe. -/
theorem claim_C5_idempotent_add (h : String → Nat) (fs : FileSystem) (p : String)
    (st st' : WriteTxn) (ev : List FsEvent)
    (hAdd : FileSearchWriteTransaction.add h fs p st = .ok (st', ev)) :
    FileSearchWriteTransaction.add h fs p st' = .ok (st', [.probe p]) ∧
    ev.head? = some (FsEvent.probe p) := by
  cases hm : fs.meta p with
  | none =>
    rw [FileSearchWriteTransaction.add_meta_missing h fs p st hm] at hAdd
    exact absurd hAdd (by simp)
  | some m =>
    cases ht : st.table p with
    | some s =>
      by_cases he : s.epoch = m.mtimeMillis
      · rw [FileSearchWriteTransaction.add_skip h fs p st m s hm ht he] at hAdd
        simp only [Except.ok.injEq, Prod.mk.injEq] at hAdd
        obtain ⟨hst, hev⟩ := hAdd
        subst hst
        subst hev
        exact ⟨FileSearchWriteTransaction.add_skip h fs p st m s hm ht he, rfl⟩
      · cases hc : fs.content p with
        | none =>
          rw [FileSearchWriteTransaction.add_read_missing_some h fs p st m s hm ht he hc]
            at hAdd
          exact absurd hAdd (by simp)
        | some c =>
          by_cases hh : s.hash = h c
          · rw [FileSearchWriteTransaction.add_metadata_only h fs p st m s c hm ht he hc hh]
              at hAdd
            simp only [Except.ok.injEq, Prod.mk.injEq] at hAdd
            obtain ⟨hst, hev⟩ := hAdd
            subst hst
            subst hev
            exact ⟨FileSearchWriteTransaction.add_skip h fs p _ m ⟨m.mtimeMillis, h c⟩ hm
              (by simp) rfl, rfl⟩
          · rw [FileSearchWriteTransaction.add_reindex_changed h fs p st m s c hm ht he hc hh]
              at hAdd
            simp only [Except.ok.injEq, Prod.mk.injEq] at hAdd
            obtain ⟨hst, hev⟩ := hAdd
            subst hst
            subst hev
            exact ⟨FileSearchWriteTransaction.add_skip h fs p _ m ⟨m.mtimeMillis, h c⟩ hm
              (by simp) rfl, rfl⟩
    | none =>
      cases hc : fs.content p with
      | none =>
        rw [FileSearchWriteTransaction.add_read_missing_none h fs p st m hm ht hc] at hAdd
        exact absurd hAdd (by simp)
      | some c =>
        rw [FileSearchWriteTransaction.add_fresh h fs p st m c hm ht hc] at hAdd
        simp only [Except.ok.injEq, Prod.mk.injEq] at hAdd
        obtain ⟨hst, hev⟩ := hAdd
        subst hst
        subst hev
        refine ⟨FileSearchWriteTransaction.add_skip h fs p _ m ⟨m.mtimeMillis, h c⟩ hm ?_ rfl,
          rfl⟩
        simp

theorem claim_C5_idempotent_add_witness :
    FileSearchWriteTransaction.add hashLen fsFresh "b" ⟨fun _ => none, []⟩ =
      .ok (stAfterFresh, [.probe "b", .readContent "b"]) ∧
    FileSearchWriteTransaction.add hashLen fsFresh "b" stAfterFresh =
      .ok (stAfterFresh, [.probe "b"]) ∧
    List.head? [FsEvent.probe "b", FsEvent.readContent "b"] = some (FsEvent.probe "b") := by
  have hAdd : FileSearchWriteTransaction.add hashLen fsFresh "b" ⟨fun _ => none, []⟩ =
      .ok (stAfterFresh, [.probe "b", .readContent "b"]) := rfl
  have h2 := claim_C5_idempotent_add hashLen fsFresh "b" ⟨fun _ => none, []⟩ stAfterFresh
    [.probe "b", .readContent "b"] hAdd
  exact ⟨hAdd, h2.1, h2.2⟩

/-- Claim C9: `remove(p)` on a path with no stored FileState and no
document in the effective index succeeds, leaves the store's key set
pointwise unchanged, and leaves the effect of the staged index operations
on any such committed index unchanged. -/
theorem claim_C9_remove_idempotent (p : String) (st : WriteTxn)
    (docs : List (String × String)) (hstate : st.table p = none)
    (hdocs : ∀ d ∈ applyOps docs st.staged, d.1 ≠ p) :
    FileSearchWriteTransaction.remove p st =
      .ok (FileSearchWriteTransaction.delete_from_state p
            (FileSearchWriteTransaction.delete_from_index p st), []) ∧
    (∀ q, (FileSearchWriteTransaction.delete_from_state p
            (FileSearchWriteTransaction.delete_from_index p st)).table q = st.table q) ∧
    applyOps docs (FileSearchWriteTransaction.delete_from_index p st).staged =
      applyOps docs st.staged := by
  refine ⟨rfl, ?_, ?_⟩
  · intro q
    simp only [FileSearchWriteTransaction.delete_from_state,
      FileSearchWriteTransaction.delete_from_index]
    by_cases hq : q = p
    · subst hq
      simp [hstate]
    · simp [hq]
  · simp only [FileSearchWriteTransaction.delete_from_index]
    rw [applyOps, List.foldl_append, List.foldl_cons, List.foldl_nil]
    show applyOp (applyOps docs st.staged) (.deleteTerm p) = applyOps docs st.staged
    rw [applyOp]
    rw [List.filter_eq_self.mpr]
    intro d hd
    simpa using hdocs d hd

theorem claim_C9_remove_idempotent_witness :
    WriteTxn.table ⟨fun _ => none, []⟩ "z" = none ∧
    (∀ d ∈ applyOps [] (WriteTxn.staged ⟨fun _ => none, []⟩), d.1 ≠ "z") ∧
    FileSearchWriteTransaction.remove "z" ⟨fun _ => none, []⟩ =
      .ok (FileSearchWriteTransaction.delete_from_state "z"
            (FileSearchWriteTransaction.delete_from_index "z" ⟨fun _ => none, []⟩), []) ∧
    (∀ q, (FileSearchWriteTransaction.delete_from_state "z"
            (FileSearchWriteTransaction.delete_from_index "z" ⟨fun _ => none, []⟩)).table q =
      WriteTxn.table ⟨fun _ => none, []⟩ q) ∧
    applyOps []
        (FileSearchWriteTransaction.delete_from_index "z" ⟨fun _ => none, []⟩).staged =
      applyOps [] (WriteTxn.staged ⟨fun _ => none, []⟩) := by
  have h := claim_C9_remove_idempotent "z" ⟨fun _ => none, []⟩ [] rfl
    (by simp [applyOps])
  exact ⟨rfl, by simp [applyOps], h.1, h.2.1, h.2.2⟩

/-- Claim C3: with an open (uncommitted) write session, the `search`
command is answered with the uncommitted-changes error and no query
reaches the engine (the state is also unchanged); conversely, whenever
the engine is queried by the search handler, no write session was open. -/
theorem claim_C3_search_gated (runQuery : String → Except ErrorModel String)
    (sh : Shell) (q : String) (w : WriteTxn) (hw : sh.writer = some w) :
    Shell.handle_search_command runQuery sh q = (sh, [.stderrUncommitted]) ∧
    (∀ sh2 : Shell,
      ShellEvent.engineQueried q ∈ (Shell.handle_search_command runQuery sh2 q).2 →
        sh2.writer = none) := by
  constructor
  · simp [Shell.handle_search_command, hw]
  · intro sh2 hmem
    cases hw2 : sh2.writer with
    | none => rfl
    | some w2 =>
      rw [Shell.handle_search_command] at hmem
      rw [hw2] at hmem
      simp at hmem

theorem claim_C3_search_gated_witness :
    shPending.writer = some ⟨fun _ => none, []⟩ ∧
    Shell.handle_search_command (fun _ => .ok "[]") shPending "x" =
      (shPending, [.stderrUncommitted]) := by
  exact ⟨rfl,
    (claim_C3_search_gated (fun _ => .ok "[]") shPending "x" ⟨fun _ => none, []⟩ rfl).1⟩

/-- Claim C4: `commit()` attempts the search-engine writer commit first
and the State-Store transaction commit second (the store commit happens
exactly when the engine commit succeeded, and never before it); and for
any commit or rollback command issued with an open session, the session
is consumed — the controller's writer is `none` afterwards — whatever the
outcomes of the underlying commit/rollback calls. -/
theorem claim_C4_commit_order_and_consumption
    (eRes sRes eRes2 sRes2 : Except ErrorModel Unit) (sh : Shell) (w : WriteTxn)
    (hw : sh.writer = some w) :
    (Shell.handle_commit_command eRes sRes sh).1.writer = none ∧
    ((Shell.handle_commit_command eRes sRes sh).2.1 = [CommitEvent.engineCommit] ∨
     (Shell.handle_commit_command eRes sRes sh).2.1 =
       [CommitEvent.engineCommit, CommitEvent.storeCommit]) ∧
    (eRes = .ok () →
      (Shell.handle_commit_command eRes sRes sh).2.1 =
        [CommitEvent.engineCommit, CommitEvent.storeCommit]) ∧
    (Shell.handle_rollback_command eRes2 sRes2 sh).1.writer = none := by
  cases eRes <;> cases sRes <;> cases eRes2 <;> cases sRes2 <;>
    simp [Shell.handle_commit_command, Shell.handle_rollback_command,
      FileSearchWriteTransaction.commit, FileSearchWriteTransaction.rollback, hw]

theorem claim_C4_commit_order_and_consumption_witness :
    shPending.writer = some ⟨fun _ => none, []⟩ ∧
    (Shell.handle_commit_command (.ok ()) (.ok ()) shPending).1.writer = none ∧
    (Shell.handle_commit_command (.ok ()) (.ok ()) shPending).2.1 =
      [CommitEvent.engineCommit, CommitEvent.storeCommit] ∧
    (Shell.handle_commit_command (.error ⟨.Tantivy, "engine commit failed"⟩)
        (.ok ()) shPending).2.1 = [CommitEvent.engineCommit] ∧
    (Shell.handle_rollback_command (.error ⟨.Tantivy, "rollback failed"⟩)
        (.ok ()) shPending).1.writer = none := by
  have h1 := claim_C4_commit_order_and_consumption (.ok ()) (.ok ())
    (.ok ()) (.ok ()) shPending ⟨fun _ => none, []⟩ rfl
  have h2 := claim_C4_commit_order_and_consumption
    (.error ⟨.Tantivy, "engine commit failed"⟩) (.ok ())
    (.error ⟨.Tantivy, "rollback failed"⟩) (.ok ()) shPending ⟨fun _ => none, []⟩ rfl
  refine ⟨rfl, h1.1, h1.2.2.1 rfl, ?_, h2.2.2.2⟩
  rcases h2.2.1 with h | h
  · exact h
  · exact absurd h (by decide)

/-- Claim C6: the fragments map of a hit is built by scanning the token
stream of the re-tokenized stored content and, for each token whose
lowercased text is in the leaf-term set, appending its half-open
byte-offset range to that term's list in stream order (terms outside the
set get no entry); concretely, content `the quick brown fox` searched
with `content:quick` yields one hit whose fragment map is
`quick ↦ [[4, 9]]`. -/
theorem claim_C6_fragment_extraction :
    (∀ (terms : List String) (toks : List Token) (term : String),
      lookupRanges (buildFragments terms toks) term =
        if term ∈ terms then
          (toks.filter fun t => decide (lowerString t.text = term)).map
            fun t => (t.offsetFrom, t.offsetTo)
        else []) ∧
    searchHits [("doc1", "the quick brown fox")] "content:quick" =
      [("doc1", [("quick", [(4, 9)])])] := by
  constructor
  · intro terms toks term
    rw [buildFragments, lookupRanges_buildFragmentsFrom]
    simp [lookupRanges]
  · decide

/-- Claim C7, divergence witness: the `From` conversions for redb's
`DatabaseError` and `TransactionError` — State-Store open/transaction
failures — tag the error `Tantivy` (the search-engine origin), not
`Redb`; the other store conversions do tag `Redb`, and io errors tag
`Io`. -/
theorem claim_C7_taxonomy_divergence :
    errorFromTransactionError "begin failed" = ⟨.Tantivy, "begin failed"⟩ ∧
    errorFromDatabaseError "open failed" = ⟨.Tantivy, "open failed"⟩ ∧
    ErrorSource.Tantivy ≠ ErrorSource.Redb ∧
    errorFromTableError "t" = ⟨.Redb, "t"⟩ ∧
    errorFromCommitError "c" = ⟨.Redb, "c"⟩ ∧
    errorFromStorageError "s" = ⟨.Redb, "s"⟩ ∧
    errorFromIo "i" = ⟨.Io, "i"⟩ ∧
    errorFromQueryParserError "q" = ⟨.Tantivy, "q"⟩ := by
  exact ⟨rfl, rfl, by decide, rfl, rfl, rfl, rfl, rfl⟩

/-- Counterexample to claim C8 as stated: the encoded values are not all
of one fixed width (and none is the claimed 24-byte / 192-bit record):
`FileStateEntry{0, 0}` encodes to 2 bytes, `FileStateEntry{300, 300}` to
6 bytes. -/
theorem claim_C8_counterexample :
    (encodeFileState ⟨0, 0⟩).length = 2 ∧
    (encodeFileState ⟨300, 300⟩).length = 6 ∧
    (2 : Nat) ≠ 6 ∧ (2 : Nat) ≠ 24 ∧ (6 : Nat) ≠ 24 := by
  decide

/-- Claim C8 as amended: the stored value is the bincode standard-config
encoding — epoch then hash, each as a variable-length integer (one byte
below 251, otherwise a marker byte and a 2/4/8/16-byte little-endian
payload); the width varies with the values, the impl reports
`fixed_width = None`, and the encoding round-trips every in-range
`FileStateEntry` (epoch < 2^128, hash < 2^64). -/
theorem claim_C8_amended_varint_roundtrip (e : FileStateEntry)
    (he : e.epoch < 2 ^ 128) (hh : e.hash < 2 ^ 64) :
    decodeFileState (encodeFileState e) = some e ∧ bincodeFixedWidth = none := by
  refine ⟨?_, rfl⟩
  have h2 : varintDecode (varintEncode e.hash) = some (e.hash, []) := by
    have h3 := varintDecode_encode e.hash [] (lt_trans hh (by norm_num))
    rwa [List.append_nil] at h3
  simp only [decodeFileState, encodeFileState, varintDecode_encode e.epoch _ he, h2]

theorem claim_C8_amended_varint_roundtrip_witness :
    (123456789 : Nat) < 2 ^ 128 ∧ (987654321 : Nat) < 2 ^ 64 ∧
    decodeFileState (encodeFileState ⟨123456789, 987654321⟩) =
      some ⟨123456789, 987654321⟩ ∧
    bincodeFixedWidth = none := by
  have h := claim_C8_amended_varint_roundtrip ⟨123456789, 987654321⟩
    (by norm_num) (by norm_num)
  exact ⟨by norm_num, by norm_num, h.1, h.2⟩

/-- Counterexample to claim C10 as stated: the failing operation does not
always leave an *empty* session. A `remove` command issued in IDLE on a
resolving path stages `deleteTerm` before `delete_from_state` runs; when
that store call errors, the controller is left in PENDING holding a
session with a non-empty staged-operation list — something *was*
staged. -/
theorem claim_C10_counterexample :
    Shell.resolve_file_path fsSkip "a" = some "a" ∧
    Shell.handle_remove_command oracleRemoveFails fsSkip worldEmpty ⟨none⟩ "a" =
      (⟨some ⟨worldEmpty.store, [.deleteTerm "a"]⟩⟩, [.stderrChangeFailed]) ∧
    WriteTxn.staged ⟨worldEmpty.store, [.deleteTerm "a"]⟩ ≠ ([] : List IndexOp) := by
  refine ⟨rfl, rfl, by decide⟩

/-- Claim C10 as amended: when an add, remove, or clear command is issued
in IDLE (the path resolving, for add/remove), the controller opens the
Write Session — fresh and empty — before running the staged operation;
if the operation then fails, the controller is left in PENDING holding
the session with exactly the partial mutations the operation performed
before failing (empty when the failure preceded any staging, e.g. an
unreadable file in add; non-empty when a store or engine call errors
after staging, e.g. remove's already-staged delete), and a subsequent
search is rejected with the uncommitted-changes error. -/
theorem claim_C10_amended (o : BackendOracle) (h : String → Nat) (fs : FileSystem)
    (world : World) (p q : String) (w' : WriteTxn) (e : ErrorModel)
    (runQuery : String → Except ErrorModel String)
    (hres : Shell.resolve_file_path fs p = some p) :
    (Shell.get_or_create_writer world ⟨none⟩).writer = some ⟨world.store, []⟩ ∧
    (WriteFallible.add o h fs p ⟨world.store, []⟩ = (w', .error e) →
      Shell.handle_add_command o h fs world ⟨none⟩ p =
        (⟨some w'⟩, [.stderrChangeFailed])) ∧
    (WriteFallible.remove o p ⟨world.store, []⟩ = (w', .error e) →
      Shell.handle_remove_command o fs world ⟨none⟩ p =
        (⟨some w'⟩, [.stderrChangeFailed])) ∧
    (WriteFallible.clear o ⟨world.store, []⟩ = (w', .error e) →
      Shell.handle_clear_command o world ⟨none⟩ =
        (⟨some w'⟩, [.stderrChangeFailed])) ∧
    (o.removeStateOk p = false →
      WriteFallible.remove o p ⟨world.store, []⟩ =
        (⟨world.store, [.deleteTerm p]⟩, .error ⟨.Redb, "state remove failed"⟩)) ∧
    Shell.handle_search_command runQuery ⟨some w'⟩ q =
      (⟨some w'⟩, [.stderrUncommitted]) := by
  refine ⟨rfl, ?_, ?_, ?_, ?_, rfl⟩
  · intro hf
    simp only [Shell.handle_add_command, hres, Shell.with_writer,
      Shell.get_or_create_writer, hf]
  · intro hf
    simp only [Shell.handle_remove_command, hres, Shell.with_writer,
      Shell.get_or_create_writer, hf]
  · intro hf
    simp only [Shell.handle_clear_command, Shell.with_writer,
      Shell.get_or_create_writer, hf]
  · intro hrm
    simp [WriteFallible.remove, WriteFallible.delete_from_state,
      WriteFallible.delete_from_index, hrm]

theorem claim_C10_amended_witness :
    Shell.resolve_file_path fsBroken "a" = some "a" ∧
    Shell.resolve_file_path fsSkip "a" = some "a" ∧
    oracleRemoveFails.removeStateOk "a" = false ∧
    WriteFallible.add allOkOracle hashLen fsBroken "a" ⟨worldEmpty.store, []⟩ =
      (⟨worldEmpty.store, []⟩, .error ⟨.Io, "read failed"⟩) ∧
    Shell.handle_add_command allOkOracle hashLen fsBroken worldEmpty ⟨none⟩ "a" =
      (⟨some ⟨worldEmpty.store, []⟩⟩, [.stderrChangeFailed]) ∧
    WriteFallible.remove oracleRemoveFails "a" ⟨worldEmpty.store, []⟩ =
      (⟨worldEmpty.store, [.deleteTerm "a"]⟩, .error ⟨.Redb, "state remove failed"⟩) ∧
    Shell.handle_remove_command oracleRemoveFails fsSkip worldEmpty ⟨none⟩ "a" =
      (⟨some ⟨worldEmpty.store, [.deleteTerm "a"]⟩⟩, [.stderrChangeFailed]) ∧
    Shell.handle_search_command (fun _ => .ok "[]")
        ⟨some ⟨worldEmpty.store, [.deleteTerm "a"]⟩⟩ "x" =
      (⟨some ⟨worldEmpty.store, [.deleteTerm "a"]⟩⟩, [.stderrUncommitted]) := by
  have h1 := claim_C10_amended allOkOracle hashLen fsBroken worldEmpty "a" "x"
    ⟨worldEmpty.store, []⟩ ⟨.Io, "read failed"⟩ (fun _ => .ok "[]") rfl
  have h2 := claim_C10_amended oracleRemoveFails hashLen fsSkip worldEmpty "a" "x"
    ⟨worldEmpty.store, [.deleteTerm "a"]⟩ ⟨.Redb, "state remove failed"⟩
    (fun _ => .ok "[]") rfl
  have hrm := h2.2.2.2.2.1 rfl
  exact ⟨rfl, rfl, rfl, rfl, h1.2.1 rfl, hrm, h2.2.2.1 hrm, h2.2.2.2.2.2⟩

end FileSearchModel
